/-
Verification of the mdview navigation/search core against its specification.

The Go sources are shallowly embedded as Lean definitions:
  * `TNode`   — the eager tree node of internal/tree/node.go, build.go and
                internal/app/tagfilter.go,
  * `LNode`   — the lazily loaded tree node variant (NewRoot / EnsureLoaded),
  * `FSEntry` — a finite filesystem tree used to run the FSLoader cache logic,
  * `MModel`  — the slice of the Bubble Tea model touched by search and watch.

Go's `sort.Slice(children, less)` postcondition (output ordered by the strict
weak order `less`) is realised with `List.insertionSort` over the
complementary total preorder `le a b := !(less b a)`; the lemma
`nodeLe_eq_not_goLess` records that complementation explicitly.

Machine integers are embedded as `Int` (no overflow is reachable: all values
are small line counts and list indices); byte positions in ASCII-oriented
string scans are embedded as character positions.
-/
import Mathlib

set_option linter.unusedVariables false

/-! ### Small string helpers shared by several Go files -/
/-- `joinPath` from internal/tree/build.go (and the identical helper in
fsloader.go and tagfilter.go). -/
def joinPath (base part : String) : String :=
  if base = "" then part else base ++ "/" ++ part

/-- Case-insensitive name key: `strings.ToLower` as used by the sorting
comparators (per-character lowering; the embedding lowers basic-latin
letters, which is what every comparator claim exercises). -/
def lowerName (s : String) : String := ⟨s.data.map Char.toLower⟩

/-- `strings.TrimSpace`. -/
def trimSpace (s : String) : String :=
  ⟨((s.data.dropWhile Char.isWhitespace).reverse.dropWhile
    Char.isWhitespace).reverse⟩

/-- `strings.Split(s, "/")`. -/
def splitOnSlashAux (cur : List Char) : List Char → List String
  | [] => [⟨cur.reverse⟩]
  | c :: r =>
    if c = '/' then ⟨cur.reverse⟩ :: splitOnSlashAux [] r
    else splitOnSlashAux (c :: cur) r

def splitOnSlash (s : String) : List String := splitOnSlashAux [] s.data

/-- Join path elements with slashes (`strings.Join(elems, "/")`). -/
def joinSlash : List String → String
  | [] => ""
  | [x] => x
  | x :: xs => x ++ "/" ++ joinSlash xs

/-- `strings.HasSuffix`. -/
def endsWithB (s sfx : String) : Bool := sfx.data.isSuffixOf s.data

/-- Go's built-in string comparison `a < b`, byte-wise lexicographic (UTF-8
byte order and code-point order agree, so character-level comparison is the
same relation). -/
def strLtB : List Char → List Char → Bool
  | [], [] => false
  | [], _ :: _ => true
  | _ :: _, [] => false
  | a :: as, b :: bs =>
    if a.toNat < b.toNat then true
    else if b.toNat < a.toNat then false
    else strLtB as bs

def strLtS (x y : String) : Bool := strLtB x.data y.data

/-- The complement order `x ≤ y := ¬(y < x)` used to state `sort.Slice`'s
postcondition. -/
def strLeB (x y : String) : Bool := !(strLtB y.data x.data)

/-! ### Eager tree nodes: internal/tree/node.go -/
/-- `tree.Node` of node.go / build.go / tagfilter.go: name, slash-joined
relative path, directory flag, open flag and the ordered children.  The
non-owning parent back-reference is not represented: in a purely functional
tree the parent is determined by the enclosing structure and no embedded
operation reads it. -/
inductive TNode : Type where
  | mk (name path : String) (isDir isOpen : Bool) (children : List TNode)

def TNode.name : TNode → String
  | .mk n _ _ _ _ => n

def TNode.path : TNode → String
  | .mk _ p _ _ _ => p

def TNode.isDir : TNode → Bool
  | .mk _ _ d _ _ => d

def TNode.isOpen : TNode → Bool
  | .mk _ _ _ o _ => o

def TNode.children : TNode → List TNode
  | .mk _ _ _ _ c => c

/-- Replace the children sequence, keeping every other field. -/
def TNode.withChildren : TNode → List TNode → TNode
  | .mk n p d o _, c => .mk n p d o c

/-- `Node.ChildByName`: linear scan for the first child with the given name. -/
def childByName (n : TNode) (name : String) : Option TNode :=
  n.children.find? (fun c => c.name == name)

/-- `Node.AddChild`: append the child (the parent pointer it also sets is not
represented). -/
def addChild (n : TNode) (child : TNode) : TNode :=
  n.withChildren (n.children ++ [child])

/-- The `less` closure passed to `sort.Slice` in `SortRecursive`,
`sortChildren` and `sortTree`: directories strictly before files, otherwise
strictly ascending lowercase name. -/
def goLess (a b : TNode) : Bool :=
  if a.isDir == b.isDir then strLtS (lowerName a.name) (lowerName b.name)
  else a.isDir

/-- The total preorder complementary to `goLess`; `sort.Slice`'s output is
exactly a permutation pairwise ordered by it. -/
def nodeLe (a b : TNode) : Bool :=
  if a.isDir == b.isDir then strLeB (lowerName a.name) (lowerName b.name)
  else a.isDir

/-- `nodeLe` as a propositional relation, for the sorting routine. -/
def nodeLeR (a b : TNode) : Prop := nodeLe a b = true

instance : DecidableRel nodeLeR :=
  fun a b => (instDecidableEqBool (nodeLe a b) true : Decidable (nodeLeR a b))

/-- `Node.SortRecursive` of node.go: sort the direct children with the
comparator, then recurse into every child that itself has children. -/
def sortRecursive (n : TNode) : TNode :=
  n.withChildren (((List.insertionSort nodeLeR n.children).attach).map
    (fun c => if c.1.children.isEmpty then c.1 else sortRecursive c.1))
termination_by sizeOf n
decreasing_by
  rename_i hc
  have hmem : c.1 ∈ n.children :=
    (List.perm_insertionSort nodeLeR n.children).mem_iff.mp c.2
  have h1 : sizeOf c.1 < sizeOf n.children := List.sizeOf_lt_of_mem hmem
  cases n with
  | mk nm p d o cs =>
    simp only [TNode.children] at h1
    simp only [TNode.mk.sizeOf_spec]
    omega

/-- `sortTree` of internal/app/tagfilter.go: return unchanged when there are
no children, otherwise sort the children and recurse into each of them. -/
def sortTree (n : TNode) : TNode :=
  if n.children.isEmpty then n
  else n.withChildren (((List.insertionSort nodeLeR n.children).attach).map
    (fun c => sortTree c.1))
termination_by sizeOf n
decreasing_by
  have hmem : c.1 ∈ n.children :=
    (List.perm_insertionSort nodeLeR n.children).mem_iff.mp c.2
  have h1 : sizeOf c.1 < sizeOf n.children := List.sizeOf_lt_of_mem hmem
  cases n with
  | mk nm p d o cs =>
    simp only [TNode.children] at h1
    simp only [TNode.mk.sizeOf_spec]
    omega

/-- Boolean pairwise-ordered check for a list. -/
def pairwiseB {α : Type} (le : α → α → Bool) : List α → Bool
  | [] => true
  | a :: l => l.all (le a) && pairwiseB le l

mutual
/-- The sorting invariant, recursively: every node's children are pairwise
ordered by `nodeLe` (directories first, lowercase names ascending), at every
level of the tree. -/
def sortedRec : TNode → Bool
  | .mk _ _ _ _ children => pairwiseB nodeLe children && sortedRecList children
def sortedRecList : List TNode → Bool
  | [] => true
  | c :: cs => sortedRec c && sortedRecList cs
end

/-! ### Eager builder: internal/tree/build.go -/
/-- The per-path segment walk of `tree.Build`: intermediate segments create or
re-use directory nodes and descend; the final segment is attached as a file
node unless a child with that name already exists (first occurrence wins). -/
def replaceFirstChild (name : String) (f : TNode → TNode) : List TNode → List TNode
  | [] => []
  | c :: cs => if c.name == name then f c :: cs else c :: replaceFirstChild name f cs

def insertParts (n : TNode) (currentPath : String) : List String → TNode
  | [] => n
  | part :: rest =>
    match rest with
    | [] =>
      match childByName n part with
      | some _ => n
      | none => addChild n (TNode.mk part (joinPath currentPath part) false false [])
    | _ :: _ =>
      let newPath := joinPath currentPath part
      match childByName n part with
      | some _ =>
        n.withChildren (replaceFirstChild part
          (fun c => insertParts c newPath rest) n.children)
      | none => addChild n (insertParts (TNode.mk part newPath true false []) newPath rest)

/-- `tree.Build`: fold every relative path into the tree, then sort
recursively. -/
def build (rootName : String) (files : List String) : TNode :=
  sortRecursive (files.foldl
    (fun acc rel => insertParts acc "" (splitOnSlash rel))
    (TNode.mk rootName "" true true []))

/-! ### Tag-filtered builder: internal/app/tagfilter.go -/
/-- `insertPath` of tagfilter.go.  Existing children are re-used even for the
final segment, but the final segment's node is then forced to be a closed,
childless file node. -/
def insertPartsT (n : TNode) (parentPath : String) : List String → TNode
  | [] => n
  | part :: rest =>
    let childPath := joinPath parentPath part
    match rest with
    | [] =>
      match childByName n part with
      | some _ =>
        n.withChildren (replaceFirstChild part
          (fun c => TNode.mk c.name c.path false false []) n.children)
      | none => addChild n (TNode.mk part childPath false false [])
    | _ :: _ =>
      match childByName n part with
      | some _ =>
        n.withChildren (replaceFirstChild part
          (fun c => insertPartsT c childPath rest) n.children)
      | none => addChild n (insertPartsT (TNode.mk part childPath true false []) childPath rest)

/-- `strings.Trim(rel, "/")`: remove leading and trailing slashes. -/
def trimSlashes (s : String) : String :=
  ⟨((s.data.dropWhile (· == '/')).reverse.dropWhile (· == '/')).reverse⟩

/-- `buildFilteredTree` of tagfilter.go. -/
def buildFilteredTree (displayRoot : String) (relPaths : List String) : TNode :=
  sortTree (relPaths.foldl
    (fun acc rel =>
      let trimmed := trimSlashes rel
      if trimmed = "" then acc else insertPartsT acc "" (splitOnSlash trimmed))
    (TNode.mk displayRoot "" true true []))

/-! ### Lazily loaded nodes: the `tree` package variant with a Loader
(src/unnamed/part_000) -/
/-- The lazy `tree.Node`: same visible fields plus the private `loaded` flag;
the presence of the `loader` pointer is the `hasLoader` flag, and the listing
behaviour of the loader is passed to `ensureLoaded` as an explicit function. -/
inductive LNode : Type where
  | mk (name path : String) (isDir isOpen : Bool) (children : List LNode)
       (loaded hasLoader : Bool)

def LNode.name : LNode → String
  | .mk n _ _ _ _ _ _ => n

def LNode.path : LNode → String
  | .mk _ p _ _ _ _ _ => p

def LNode.isDir : LNode → Bool
  | .mk _ _ d _ _ _ _ => d

def LNode.isOpen : LNode → Bool
  | .mk _ _ _ o _ _ _ => o

def LNode.children : LNode → List LNode
  | .mk _ _ _ _ c _ _ => c

def LNode.loaded : LNode → Bool
  | .mk _ _ _ _ _ l _ => l

def LNode.hasLoader : LNode → Bool
  | .mk _ _ _ _ _ _ h => h

/-- `NewRoot(name, loader)`. -/
def newRoot (name : String) : LNode :=
  .mk name "" true true [] false true

/-- Give the child the parent's loader (`child.loader = n.loader`). -/
def LNode.withLoader : LNode → LNode
  | .mk n p d o c l _ => .mk n p d o c l true

/-- The comparator of `sortChildren` (textually the same as in node.go),
complemented into a total preorder exactly as `nodeLe`. -/
def nodeLeL (a b : LNode) : Bool :=
  if a.isDir == b.isDir then strLeB (lowerName a.name) (lowerName b.name)
  else a.isDir

/-- `nodeLeL` as a propositional relation. -/
def nodeLeLR (a b : LNode) : Prop := nodeLeL a b = true

instance : DecidableRel nodeLeLR :=
  fun a b => (instDecidableEqBool (nodeLeL a b) true : Decidable (nodeLeLR a b))

/-- `Node.EnsureLoaded` with the loader's `List` passed explicitly.  Returns
the node after the call, the error surfaced to the caller (if any), and the
number of underlying `List` invocations this call performed. -/
def ensureLoaded (L : String → Except String (List LNode)) (n : LNode) :
    LNode × Option String × Nat :=
  if !n.isDir || n.loaded || !n.hasLoader then (n, none, 0)
  else
    match L n.path with
    | .error e => (n, some e, 1)
    | .ok cs =>
      let attached := cs.map LNode.withLoader
      match n with
      | .mk nm p d o _ _ hl =>
        (.mk nm p d o (List.insertionSort nodeLeLR attached) true hl, none, 1)

/-! ### FSLoader subtree cache: internal/tree/fsloader.go -/
/-- `shouldSkipDir` of fsloader.go. -/
def shouldSkipDir (name : String) : Bool :=
  let lower := lowerName name
  lower == ".git" || lower == "node_modules" || lower == ".hg" ||
    lower == ".svn" || lower == ".idea" || lower == ".vscode"

/-- `isMarkdown` of fsloader.go. -/
def isMarkdown (name : String) : Bool :=
  let lower := lowerName name
  endsWithB lower ".md" || endsWithB lower ".mdx"

/-- A finite filesystem subtree: what `os.ReadDir` would reveal below one
directory.  Reads never fail in this model (the error paths of `HasMarkdown`
propagate `os.ReadDir` failures unchanged and write nothing, so they are not
load-bearing for the cache claims). -/
inductive FSEntry : Type where
  | file (name : String)
  | dir (name : String) (entries : List FSEntry)

mutual
/-- Specification-level predicate: the subtree holds at least one document,
with the skip-list directories (and everything below them) ignored. -/
def entryHasMd : FSEntry → Bool
  | .file n => isMarkdown n
  | .dir n es => !shouldSkipDir n && listHasMd es
def listHasMd : List FSEntry → Bool
  | [] => false
  | e :: es => entryHasMd e || listHasMd es
end

/-- The `FSLoader` state observable by the cache claims: the memo map (as an
association list whose head entry wins, matching map overwrite) and the log of
directories actually read with `os.ReadDir`. -/
structure HMState where
  cache : List (String × Bool)
  readPaths : List String

def lookupC (cache : List (String × Bool)) (k : String) : Option Bool :=
  (cache.find? (fun p => p.1 == k)).map (fun p => p.2)

mutual
/-- `FSLoader.HasMarkdown`: consult the cache first; on a miss read the
directory (logged in `readPaths`), scan its entries, and record the outcome
for `relPath` before returning.  The Go code writes `true` the moment a hit
is found and `false` after an exhausted loop; both writes are the final
cache update of the call, performed here when the scan returns. -/
def hasMarkdown (relPath : String) (entries : List FSEntry) (s : HMState) :
    Bool × HMState :=
  match lookupC s.cache relPath with
  | some b => (b, s)
  | none =>
    match hmScan relPath entries ⟨s.cache, s.readPaths ++ [relPath]⟩ with
    | (true, s2) => (true, ⟨(relPath, true) :: s2.cache, s2.readPaths⟩)
    | (false, s2) => (false, ⟨(relPath, false) :: s2.cache, s2.readPaths⟩)
termination_by (sizeOf entries, 1)

/-- The entry loop of `HasMarkdown`: skip-list directories are skipped, other
directories are decided recursively (short-circuiting on the first hit),
files are tested by extension. -/
def hmScan (relPath : String) (l : List FSEntry) (s : HMState) : Bool × HMState :=
  match l with
  | [] => (false, s)
  | .file name :: rest =>
    if isMarkdown name then (true, s) else hmScan relPath rest s
  | .dir name sub :: rest =>
    if shouldSkipDir name then hmScan relPath rest s
    else
      match hasMarkdown (joinPath relPath name) sub s with
      | (true, s2) => (true, s2)
      | (false, s2) => hmScan relPath rest s2
termination_by (sizeOf l, 0)
end

/-! ### Search engine: findSearchMatches, closestMatchIndex and the search
slice of the Bubble Tea model (src/unnamed/part_002) -/
/-- Modelled from the spec: the external plain-text extraction function
(`ansi.Strip`) that removes style/markup escape sequences from rendered text
before the search engine scans it.  A small CSI state machine: `ESC [`
introduces a sequence ended by a final byte in `0x40`–`0x7e`; a lone `ESC`
swallows the following character; all other characters pass through. -/
inductive StripMode : Type where
  | plain
  | sawEsc
  | inCsi

def ansiStripAux : StripMode → List Char → List Char
  | _, [] => []
  | .plain, c :: r =>
    if c = '\x1b' then ansiStripAux .sawEsc r else c :: ansiStripAux .plain r
  | .sawEsc, c :: r =>
    if c = '[' then ansiStripAux .inCsi r else ansiStripAux .plain r
  | .inCsi, c :: r =>
    if 0x40 ≤ c.toNat ∧ c.toNat ≤ 0x7e then ansiStripAux .plain r
    else ansiStripAux .inCsi r

def ansiStrip (s : String) : String := ⟨ansiStripAux .plain s.data⟩

/-- `strings.Index` (first occurrence of `q`, as a position in `l`). -/
def findIdx (q : List Char) : List Char → Option Nat
  | [] => if q.isEmpty then some 0 else none
  | l@(_ :: rest) =>
    if q.isPrefixOf l then some 0 else (findIdx q rest).map (· + 1)

/-- The scan loop of `findSearchMatches`: from `offset`, locate the next
occurrence, record the number of newline characters before its absolute
position, and resume immediately after the end of the occurrence.  The fuel
argument only bounds the iteration count (each step advances `offset` by at
least the non-empty query's length, so `lowerContent.length + 1` steps always
suffice). -/
def scanLoop (stripped lowerContent lowerQuery : List Char) :
    Nat → Nat → List Int
  | _, 0 => []
  | offset, fuel+1 =>
    match findIdx lowerQuery (lowerContent.drop offset) with
    | none => []
    | some pos =>
      (((stripped.take (offset + pos)).count '\n' : Nat) : Int) ::
        scanLoop stripped lowerContent lowerQuery
          (offset + pos + lowerQuery.length) fuel

/-- The companion scan returning the absolute start positions of the matches
instead of their line numbers; used to state the non-overlap property. -/
def scanPos (lowerContent lowerQuery : List Char) : Nat → Nat → List Nat
  | _, 0 => []
  | offset, fuel+1 =>
    match findIdx lowerQuery (lowerContent.drop offset) with
    | none => []
    | some pos =>
      (offset + pos) ::
        scanPos lowerContent lowerQuery (offset + pos + lowerQuery.length) fuel

/-- `findSearchMatches`: trim the query, give up on empty query or content,
otherwise scan the lowercased style-stripped content for the lowercased
query and report 0-based line numbers. -/
def findSearchMatches (content query : String) : List Int :=
  let query := trimSpace query
  if query = "" || content = "" then []
  else
    let stripped := (ansiStrip content).data
    let lowerContent := stripped.map Char.toLower
    let lowerQuery := query.data.map Char.toLower
    scanLoop stripped lowerContent lowerQuery 0 (lowerContent.length + 1)

/-- `absInt` of part_002. -/
def absInt (v : Int) : Int := if v < 0 then -v else v

/-- The scan of `closestMatchIndex` from index 1 onwards, keeping the best
(strictly smaller) distance seen so far. -/
def closestLoop (line : Int) : List Int → Nat → Int → Nat → Nat
  | [], _, _, best => best
  | m :: rest, i, bestDiff, best =>
    if absInt (m - line) < bestDiff then closestLoop line rest (i + 1) (absInt (m - line)) i
    else closestLoop line rest (i + 1) bestDiff best

/-- `closestMatchIndex`. -/
def closestMatchIndex (ms : List Int) (line : Int) : Nat :=
  match ms with
  | [] => 0
  | m :: rest => closestLoop line rest 1 (absInt (m - line)) 0

/-- `clamp` of part_002. -/
def clampInt (value low high : Int) : Int :=
  if value < low then low else if value > high then high else value

/-- `max` of part_002. -/
def maxInt (a b : Int) : Int := if a > b then a else b

/-! ### The model slice: viewport, search state, watch state -/
/-- The slice of the external viewport widget the controller reads and
writes: its height, the number of lines of the content it was last given,
and the vertical scroll offset. -/
structure Viewport where
  height : Int
  lineCount : Int
  yOffset : Int

/-- Lines of a rendered text, as the viewport counts them. -/
def countLines (s : String) : Int := ((s.data.count '\n' : Nat) : Int) + 1

/-- Modelled from the spec: the viewport widget's settable vertical scroll
offset.  Scenario D fixes its clamping contract: a restored offset is kept
when the content has at least that many lines and clamped otherwise (and an
offset is never negative). -/
def Viewport.setYOffset (vp : Viewport) (o : Int) : Viewport :=
  { vp with yOffset := maxInt 0 (if o > vp.lineCount then vp.lineCount else o) }

/-- Modelled from the spec: giving the viewport new content replaces the
line count it clamps against and clamps the current offset to it — scenario
D's contract for the widget is that the prior scroll offset survives a
content change only when the new content has at least that many lines and is
clamped otherwise, and the real widget indeed snaps an out-of-range offset
back into range whenever content is set.  The controller otherwise only
reads/writes offset and size. -/
def Viewport.setContent (vp : Viewport) (s : String) : Viewport :=
  { vp with
    lineCount := countLines s,
    yOffset := maxInt 0 (if vp.yOffset > countLines s
      then countLines s else vp.yOffset) }

/-- The fields of `ui.Model` that the search engine and the watch reactor
read or write.  `err` is the single current-error/status slot (a message
string); tree fields are omitted (no embedded operation here touches
them). -/
structure MModel where
  rawContent : String
  renderedContent : String
  err : Option String
  searchQuery : String
  searchMatches : List Int
  searchIndex : Int
  watchedFile : String
  activeAbsPath : String
  contentVP : Viewport

/-- The "no match" status message `fmt.Errorf("%q に一致しません。", query)`. -/
def noMatchMsg (query : String) : String :=
  "\"" ++ query ++ "\" に一致しません。"

/-- `gotoSearchMatch`: scroll so the current match's line is visible (the Go
locals `totalLines`, `targetLine` and `maxOffset` are inlined). -/
def gotoSearchMatch (m : MModel) : MModel :=
  if m.searchMatches.isEmpty || m.searchIndex < 0 then m
  else if ((m.renderedContent.data.count '\n' : Nat) : Int) + 1 ≤ 0 then m
  else
    { m with contentVP := m.contentVP.setYOffset (clampInt
        (m.searchMatches.getD m.searchIndex.toNat 0) 0
        (maxInt ((((m.renderedContent.data.count '\n' : Nat) : Int) + 1)
          - m.contentVP.height) 0)) }

/-- `performSearch` (the Go locals are inlined; the trimmed query is stored,
the fresh match list installed, and on an empty result the index is cleared
and the "no match" status raised). -/
def performSearch (m : MModel) (query : String) (resetIndex : Bool) : MModel :=
  if (findSearchMatches m.renderedContent (trimSpace query)).isEmpty then
    { m with searchQuery := trimSpace query,
             searchMatches := findSearchMatches m.renderedContent (trimSpace query),
             searchIndex := -1, err := some (noMatchMsg (trimSpace query)) }
  else if resetIndex || m.searchIndex < 0 ||
      m.searchIndex ≥
        ((findSearchMatches m.renderedContent (trimSpace query)).length : Int) then
    gotoSearchMatch
      { m with searchQuery := trimSpace query,
               searchMatches := findSearchMatches m.renderedContent (trimSpace query),
               searchIndex := 0, err := none }
  else
    gotoSearchMatch
      { m with searchQuery := trimSpace query,
               searchMatches := findSearchMatches m.renderedContent (trimSpace query),
               err := none }

/-- `nextSearchMatch`. -/
def nextSearchMatch (m : MModel) : MModel :=
  if m.searchMatches.isEmpty then m
  else
    gotoSearchMatch
      { m with
        searchIndex :=
          (if m.searchIndex < 0 then 0
            else (m.searchIndex + 1) % (m.searchMatches.length : Int)),
        err := none }

/-- `previousSearchMatch`. -/
def previousSearchMatch (m : MModel) : MModel :=
  if m.searchMatches.isEmpty then m
  else
    gotoSearchMatch
      { m with
        searchIndex :=
          (if m.searchIndex ≤ 0 then (m.searchMatches.length : Int) - 1
            else m.searchIndex - 1),
        err := none }

/-- The `prevLine` local of `onContentChanged`: the previous current match's
line when it is known (valid index into a non-empty match list), else −1. -/
def prevMatchLine (m : MModel) : Int :=
  if !m.searchMatches.isEmpty ∧ 0 ≤ m.searchIndex ∧
      m.searchIndex < (m.searchMatches.length : Int)
  then m.searchMatches.getD m.searchIndex.toNat 0
  else -1

/-- `onContentChanged`: reconcile the match list with regenerated content
(the Go locals are inlined). -/
def onContentChanged (m : MModel) : MModel :=
  if m.searchQuery = "" then m
  else if (findSearchMatches m.renderedContent m.searchQuery).isEmpty then
    { m with searchMatches := findSearchMatches m.renderedContent m.searchQuery,
             searchIndex := -1, err := some (noMatchMsg m.searchQuery) }
  else if 0 ≤ prevMatchLine m then
    gotoSearchMatch
      { m with searchMatches := findSearchMatches m.renderedContent m.searchQuery,
               searchIndex := (closestMatchIndex
                 (findSearchMatches m.renderedContent m.searchQuery)
                 (prevMatchLine m) : Int),
               err := none }
  else if m.searchIndex < 0 ||
      m.searchIndex ≥
        ((findSearchMatches m.renderedContent m.searchQuery).length : Int) then
    gotoSearchMatch
      { m with searchMatches := findSearchMatches m.renderedContent m.searchQuery,
               searchIndex := 0, err := none }
  else
    gotoSearchMatch
      { m with searchMatches := findSearchMatches m.renderedContent m.searchQuery,
               err := none }

/-! ### Watch reactor: handleFileEvent / reloadActiveFile (part_002) -/
/-- Modelled from the spec: path normalization (`filepath.Clean` on a
slash-separated platform) — drop empty and `.` elements, resolve `..`
lexically (popping a previous element, or keeping the `..` for relative
paths above the start, or dropping it at an absolute root), re-join, with
`.` for an empty result. -/
def cleanComps (rooted : Bool) : List String → List String → List String
  | acc, [] => acc.reverse
  | acc, c :: cs =>
    if c = ".." then
      match acc with
      | [] => cleanComps rooted (if rooted then [] else [".."]) cs
      | top :: rest =>
        if top = ".." then cleanComps rooted (c :: acc) cs
        else cleanComps rooted rest cs
    else cleanComps rooted (c :: acc) cs

def cleanPath (p : String) : String :=
  if p = "" then "."
  else
    let rooted := match p.data with
      | [] => false
      | c :: _ => c == '/'
    let comps := (splitOnSlash p).filter (fun c => !(c == "" || c == "."))
    let joined := joinSlash (cleanComps rooted [] comps)
    if rooted then "/" ++ joined
    else if joined = "" then "." else joined

/-- `renderMarkdown`: the external renderer (spec §6: `Render(rawText) ->
(displayText, error)`) is passed explicitly; `none` stands for a nil
renderer.  On success the error slot is cleared, the viewport receives the
content, and the search engine reconciles. -/
def renderMarkdown (render : Option (String → Except String String))
    (m : MModel) : MModel :=
  match render with
  | none => m
  | some r =>
    match r m.rawContent with
    | .error e => { m with err := some e }
    | .ok rendered =>
      onContentChanged { m with
        err := none,
        contentVP := m.contentVP.setContent rendered,
        renderedContent := rendered }

/-- `reloadActiveFile` with the byte-reading collaborator passed explicitly;
the second component counts file reads performed.  The scroll offset taken
before re-rendering is restored afterwards (clamped by the viewport) unless
rendering failed. -/
def reloadActiveFile (fsRead : String → Except String String)
    (render : Option (String → Except String String)) (m : MModel) :
    MModel × Nat :=
  if m.activeAbsPath = "" then (m, 0)
  else
    match fsRead m.activeAbsPath with
    | .error e => ({ m with err := some e }, 1)
    | .ok data =>
      if (renderMarkdown render { m with rawContent := data }).err = none then
        ({ renderMarkdown render { m with rawContent := data } with
            contentVP :=
              (renderMarkdown render
                { m with rawContent := data }).contentVP.setYOffset
                m.contentVP.yOffset }, 1)
      else (renderMarkdown render { m with rawContent := data }, 1)

/-- `handleFileEvent`: drop the message unless its cleaned path equals the
cleaned watched file; on a match reload the active file once. -/
def handleFileEvent (fsRead : String → Except String String)
    (render : Option (String → Except String String)) (m : MModel)
    (msgPath : String) : MModel × Nat :=
  if m.watchedFile = "" then (m, 0)
  else if cleanPath msgPath ≠ cleanPath m.watchedFile then (m, 0)
  else reloadActiveFile fsRead render m

/-! ### Sorting invariant for the lazy nodes -/
mutual
/-- The recursive sorting invariant for lazy nodes. -/
def sortedRecL : LNode → Bool
  | .mk _ _ _ _ children _ _ => pairwiseB nodeLeL children && sortedRecListL children
def sortedRecListL : List LNode → Bool
  | [] => true
  | c :: cs => sortedRecL c && sortedRecListL cs
end

/-! ## Theorems -/

theorem charEq_of_toNat {a b : Char} (h : a.toNat = b.toNat) : a = b := by
  have ha := Char.ofNat_toNat a
  have hb := Char.ofNat_toNat b
  rw [← ha, ← hb, h]

theorem strLtB_asymm : ∀ (x y : List Char),
    strLtB x y = true → strLtB y x = false
  | [], [], h => by simp [strLtB] at h
  | [], _ :: _, _ => by simp [strLtB]
  | _ :: _, [], h => by simp [strLtB] at h
  | a :: as, b :: bs, h => by
    by_cases h1 : a.toNat < b.toNat
    · simp only [strLtB, if_neg (show ¬b.toNat < a.toNat by omega), if_pos h1]
    · by_cases h2 : b.toNat < a.toNat
      · simp only [strLtB, if_neg h1, if_pos h2] at h
        exact Bool.noConfusion h
      · simp only [strLtB, if_neg h1, if_neg h2] at h ⊢
        exact strLtB_asymm as bs h

theorem strLtB_trans : ∀ (x y z : List Char),
    strLtB x y = true → strLtB y z = true → strLtB x z = true
  | [], [], _, h, _ => by simp [strLtB] at h
  | [], _ :: _, [], _, h => by simp [strLtB] at h
  | [], _ :: _, _ :: _, _, _ => by simp [strLtB]
  | _ :: _, [], _, h, _ => by simp [strLtB] at h
  | _ :: _, _ :: _, [], _, h => by simp [strLtB] at h
  | a :: as, b :: bs, c :: cs, h1, h2 => by
    by_cases hab : a.toNat < b.toNat <;> by_cases hbc : b.toNat < c.toNat
    · simp only [strLtB, if_pos (show a.toNat < c.toNat by omega)]
    · by_cases hcb : c.toNat < b.toNat
      · simp only [strLtB, if_neg hbc, if_pos hcb] at h2
        exact Bool.noConfusion h2
      · simp only [strLtB, if_pos (show a.toNat < c.toNat by omega)]
    · by_cases hba : b.toNat < a.toNat
      · simp only [strLtB, if_neg hab, if_pos hba] at h1
        exact Bool.noConfusion h1
      · simp only [strLtB, if_pos (show a.toNat < c.toNat by omega)]
    · by_cases hba : b.toNat < a.toNat
      · simp only [strLtB, if_neg hab, if_pos hba] at h1
        exact Bool.noConfusion h1
      · by_cases hcb : c.toNat < b.toNat
        · simp only [strLtB, if_neg hbc, if_pos hcb] at h2
          exact Bool.noConfusion h2
        · simp only [strLtB, if_neg hab, if_neg hba] at h1
          simp only [strLtB, if_neg hbc, if_neg hcb] at h2
          simp only [strLtB, if_neg (show ¬a.toNat < c.toNat by omega),
            if_neg (show ¬c.toNat < a.toNat by omega)]
          exact strLtB_trans as bs cs h1 h2

theorem strLtB_eq : ∀ (x y : List Char),
    strLtB x y = false → strLtB y x = false → x = y
  | [], [], _, _ => rfl
  | [], _ :: _, h, _ => by simp [strLtB] at h
  | _ :: _, [], _, h => by simp [strLtB] at h
  | a :: as, b :: bs, hab, hba => by
    by_cases h1 : a.toNat < b.toNat
    · simp only [strLtB, if_pos h1] at hab
      exact Bool.noConfusion hab
    · by_cases h2 : b.toNat < a.toNat
      · simp only [strLtB, if_pos h2] at hba
        exact Bool.noConfusion hba
      · simp only [strLtB, if_neg h1, if_neg h2] at hab hba
        have hc : a = b := charEq_of_toNat (by omega)
        rw [hc, strLtB_eq as bs hab hba]

theorem strLeB_trans (x y z : String) :
    strLeB x y = true → strLeB y z = true → strLeB x z = true := by
  unfold strLeB
  intro h1 h2
  rw [Bool.not_eq_eq_eq_not, Bool.not_true] at h1 h2
  rw [Bool.not_eq_eq_eq_not, Bool.not_true]
  cases hzx : strLtB z.data x.data
  · rfl
  · exfalso
    cases hyz : strLtB y.data z.data
    · have heq := strLtB_eq y.data z.data hyz h2
      rw [heq] at h1
      rw [h1] at hzx
      exact Bool.noConfusion hzx
    · have h3 := strLtB_trans y.data z.data x.data hyz hzx
      rw [h3] at h1
      exact Bool.noConfusion h1

theorem strLeB_total (x y : String) : (strLeB x y || strLeB y x) = true := by
  unfold strLeB
  cases h : strLtB y.data x.data
  · rfl
  · have h2 := strLtB_asymm y.data x.data h
    rw [h2]
    rfl

theorem nodeLe_eq_not_goLess (a b : TNode) : nodeLe a b = !goLess b a := by
  unfold nodeLe goLess
  cases hab : a.isDir <;> cases hbb : b.isDir <;> rfl

theorem nodeLe_trans (a b c : TNode) :
    nodeLe a b → nodeLe b c → nodeLe a c := by
  unfold nodeLe
  cases ha : a.isDir <;> cases hb : b.isDir <;> cases hc : c.isDir <;>
    intro h1 h2 <;>
    first
      | exact Bool.noConfusion h1
      | exact Bool.noConfusion h2
      | rfl
      | exact strLeB_trans _ _ _ h1 h2

theorem nodeLe_total (a b : TNode) : nodeLe a b || nodeLe b a := by
  unfold nodeLe
  cases ha : a.isDir <;> cases hb : b.isDir <;>
    first
      | rfl
      | exact strLeB_total _ _

theorem nodeLeL_trans (a b c : LNode) :
    nodeLeL a b → nodeLeL b c → nodeLeL a c := by
  unfold nodeLeL
  cases ha : a.isDir <;> cases hb : b.isDir <;> cases hc : c.isDir <;>
    intro h1 h2 <;>
    first
      | exact Bool.noConfusion h1
      | exact Bool.noConfusion h2
      | rfl
      | exact strLeB_trans _ _ _ h1 h2

theorem nodeLeL_total (a b : LNode) : nodeLeL a b || nodeLeL b a := by
  unfold nodeLeL
  cases ha : a.isDir <;> cases hb : b.isDir <;>
    first
      | rfl
      | exact strLeB_total _ _

/-! ### The sorting invariant holds after build, load and merge (claim C1) -/
theorem pairwiseB_iff {α : Type} (le : α → α → Bool) (l : List α) :
    pairwiseB le l = true ↔ l.Pairwise (fun a b => le a b = true) := by
  induction l with
  | nil => simp [pairwiseB]
  | cons a l ih =>
    simp [pairwiseB, List.all_eq_true, ih, List.pairwise_cons]

theorem sortedRecList_iff (l : List TNode) :
    sortedRecList l = true ↔ ∀ c ∈ l, sortedRec c = true := by
  induction l with
  | nil => simp [sortedRecList]
  | cons c cs ih => simp [sortedRecList, ih]

theorem sortedRec_def (n : TNode) :
    sortedRec n = (pairwiseB nodeLe n.children && sortedRecList n.children) := by
  cases n; rfl

theorem withChildren_name (n : TNode) (cs : List TNode) :
    (n.withChildren cs).name = n.name := by cases n; rfl

theorem withChildren_isDir (n : TNode) (cs : List TNode) :
    (n.withChildren cs).isDir = n.isDir := by cases n; rfl

theorem withChildren_children (n : TNode) (cs : List TNode) :
    (n.withChildren cs).children = cs := by cases n; rfl

theorem sortRecursive_eq_map (n : TNode) :
    sortRecursive n = n.withChildren ((List.insertionSort nodeLeR n.children).map
      (fun c => if c.children.isEmpty then c else sortRecursive c)) := by
  rw [sortRecursive, List.attach_map_coe (List.insertionSort nodeLeR n.children)
    (fun c => if c.children.isEmpty then c else sortRecursive c)]

theorem sortRecursive_name (n : TNode) : (sortRecursive n).name = n.name := by
  rw [sortRecursive_eq_map]; exact withChildren_name _ _

theorem sortRecursive_isDir (n : TNode) : (sortRecursive n).isDir = n.isDir := by
  rw [sortRecursive_eq_map]; exact withChildren_isDir _ _

theorem nodeLe_congr {a b a' b' : TNode} (ha1 : a'.name = a.name)
    (ha2 : a'.isDir = a.isDir) (hb1 : b'.name = b.name)
    (hb2 : b'.isDir = b.isDir) : nodeLe a' b' = nodeLe a b := by
  unfold nodeLe; rw [ha1, ha2, hb1, hb2]

/-- Children of a node with empty children list are trivially sorted. -/
theorem sortedRec_of_no_children (n : TNode) (h : n.children = []) :
    sortedRec n = true := by
  rw [sortedRec_def, h]; rfl

theorem pairwise_sort_nodeLe (l : List TNode) :
    (List.insertionSort nodeLeR l).Pairwise nodeLeR := by
  haveI : IsTrans TNode nodeLeR :=
    ⟨fun a b c hab hbc => nodeLe_trans a b c hab hbc⟩
  haveI : IsTotal TNode nodeLeR :=
    ⟨fun a b => by
      have h := nodeLe_total a b
      rcases Bool.or_eq_true_iff.mp h with h1 | h1
      · exact Or.inl h1
      · exact Or.inr h1⟩
  exact List.sorted_insertionSort nodeLeR l

/-- After `SortRecursive`, the sorting invariant holds at every level. -/
theorem sortedRec_sortRecursive (n : TNode) : sortedRec (sortRecursive n) = true := by
  rw [sortRecursive_eq_map, sortedRec_def, withChildren_children,
    Bool.and_eq_true]
  constructor
  · rw [pairwiseB_iff, List.pairwise_map]
    refine (pairwise_sort_nodeLe n.children).imp ?_
    intro a b hab
    have h : nodeLe (if a.children.isEmpty then a else sortRecursive a)
        (if b.children.isEmpty then b else sortRecursive b) = nodeLe a b := by
      apply nodeLe_congr <;> split <;>
        first
          | rfl
          | exact sortRecursive_name _
          | exact sortRecursive_isDir _
    rw [h]; exact hab
  · rw [sortedRecList_iff]
    intro c hc
    rw [List.mem_map] at hc
    obtain ⟨a, ha, rfl⟩ := hc
    have hmem : a ∈ n.children := (List.perm_insertionSort nodeLeR n.children).mem_iff.mp ha
    have hsz : sizeOf a < sizeOf n := by
      have h1 : sizeOf a < sizeOf n.children := List.sizeOf_lt_of_mem hmem
      cases n with
      | mk nm p d o cs =>
        simp only [TNode.children] at h1
        simp only [TNode.mk.sizeOf_spec]
        omega
    by_cases he : a.children.isEmpty
    · rw [if_pos he]
      exact sortedRec_of_no_children a (List.isEmpty_iff.mp he)
    · rw [if_neg he]
      exact sortedRec_sortRecursive a
termination_by sizeOf n

theorem sortTree_eq_map (n : TNode) :
    sortTree n = if n.children.isEmpty then n
      else n.withChildren ((List.insertionSort nodeLeR n.children).map sortTree) := by
  rw [sortTree]
  split
  · rfl
  · rw [List.attach_map_coe (List.insertionSort nodeLeR n.children) sortTree]

theorem sortTree_name (n : TNode) : (sortTree n).name = n.name := by
  rw [sortTree_eq_map]; split
  · rfl
  · exact withChildren_name _ _

theorem sortTree_isDir (n : TNode) : (sortTree n).isDir = n.isDir := by
  rw [sortTree_eq_map]; split
  · rfl
  · exact withChildren_isDir _ _

/-- After tagfilter's `sortTree`, the sorting invariant holds at every level. -/
theorem sortedRec_sortTree (n : TNode) : sortedRec (sortTree n) = true := by
  rw [sortTree_eq_map]
  split
  · rename_i he
    exact sortedRec_of_no_children n (List.isEmpty_iff.mp he)
  · rw [sortedRec_def, withChildren_children, Bool.and_eq_true]
    constructor
    · rw [pairwiseB_iff, List.pairwise_map]
      refine (pairwise_sort_nodeLe n.children).imp ?_
      intro a b hab
      rw [nodeLe_congr (sortTree_name a) (sortTree_isDir a)
        (sortTree_name b) (sortTree_isDir b)]
      exact hab
    · rw [sortedRecList_iff]
      intro c hc
      rw [List.mem_map] at hc
      obtain ⟨a, ha, rfl⟩ := hc
      have hmem : a ∈ n.children := (List.perm_insertionSort nodeLeR n.children).mem_iff.mp ha
      have hsz : sizeOf a < sizeOf n := by
        have h1 : sizeOf a < sizeOf n.children := List.sizeOf_lt_of_mem hmem
        cases n with
        | mk nm p d o cs =>
          simp only [TNode.children] at h1
          simp only [TNode.mk.sizeOf_spec]
          omega
      exact sortedRec_sortTree a
termination_by sizeOf n

/-! ### Cache correctness of `HasMarkdown` (claim C2) -/
theorem lookupC_cons_self (c : List (String × Bool)) (k : String) (v : Bool) :
    lookupC ((k, v) :: c) k = some v := by
  simp [lookupC, List.find?_cons]

theorem lookupC_cons_isSome {c : List (String × Bool)} {q : String}
    (h : (lookupC c q).isSome) (k : String) (v : Bool) :
    (lookupC ((k, v) :: c) q).isSome := by
  unfold lookupC at h ⊢
  rw [List.find?_cons]
  cases hkq : ((k, v).1 == q)
  · simpa using h
  · simp

theorem lookupC_some_val {c : List (String × Bool)} {k : String} {b : Bool}
    (h : lookupC c k = some b) (hall : ∀ kv ∈ c, kv.2 = false) : b = false := by
  unfold lookupC at h
  cases hf : c.find? (fun p => p.1 == k) with
  | none => rw [hf] at h; simp at h
  | some kv =>
    rw [hf] at h
    simp at h
    have hmem : kv ∈ c := List.mem_of_find?_eq_some hf
    rw [← h]
    exact hall kv hmem

mutual
/-- In a markdown-free subtree, with a cache holding only negative results,
`HasMarkdown` answers false and keeps every cached value negative. -/
theorem hasMarkdown_no_md (relPath : String) (entries : List FSEntry) (s : HMState)
    (hmd : listHasMd entries = false) (hc : ∀ kv ∈ s.cache, kv.2 = false) :
    (hasMarkdown relPath entries s).1 = false ∧
      (∀ kv ∈ (hasMarkdown relPath entries s).2.cache, kv.2 = false) := by
  rw [hasMarkdown]
  split
  · rename_i b heq
    exact ⟨lookupC_some_val heq hc, hc⟩
  · rename_i heq
    have hrec := hmScan_no_md relPath entries
      ⟨s.cache, s.readPaths ++ [relPath]⟩ hmd hc
    split
    · rename_i s2 heq2
      rw [heq2] at hrec
      simp at hrec
    · rename_i s2 heq2
      rw [heq2] at hrec
      refine ⟨rfl, ?_⟩
      intro kv hkv
      rcases List.mem_cons.mp hkv with h1 | h1
      · rw [h1]
      · exact hrec.2 kv h1
termination_by (sizeOf entries, 1)

theorem hmScan_no_md (relPath : String) (l : List FSEntry) (s : HMState)
    (hmd : listHasMd l = false) (hc : ∀ kv ∈ s.cache, kv.2 = false) :
    (hmScan relPath l s).1 = false ∧
      (∀ kv ∈ (hmScan relPath l s).2.cache, kv.2 = false) := by
  match l with
  | [] =>
    rw [hmScan]
    exact ⟨rfl, hc⟩
  | .file name :: rest =>
    rw [listHasMd, entryHasMd, Bool.or_eq_false_iff] at hmd
    rw [hmScan]
    rw [if_neg (by simp [hmd.1])]
    exact hmScan_no_md relPath rest s hmd.2 hc
  | .dir name sub :: rest =>
    rw [listHasMd, entryHasMd, Bool.or_eq_false_iff] at hmd
    rw [hmScan]
    by_cases hskip : shouldSkipDir name
    · rw [if_pos hskip]
      exact hmScan_no_md relPath rest s hmd.2 hc
    · rw [if_neg hskip]
      have hsub : listHasMd sub = false := by
        cases hsub2 : listHasMd sub
        · rfl
        · exfalso
          have h1 := hmd.1
          rw [hsub2] at h1
          simp at h1
          exact hskip h1
      have hrec := hasMarkdown_no_md (joinPath relPath name) sub s hsub hc
      split
      · rename_i s2 heq2
        rw [heq2] at hrec
        simp at hrec
      · rename_i s2 heq2
        rw [heq2] at hrec
        exact hmScan_no_md relPath rest s2 hmd.2 hrec.2
termination_by (sizeOf l, 0)
end

mutual
/-- Every call extends the cache monotonically, and every directory the call
reads ends up with a cache entry of its own. -/
theorem hasMarkdown_visited (relPath : String) (entries : List FSEntry) (s : HMState) :
    (∀ k, (lookupC s.cache k).isSome →
        (lookupC (hasMarkdown relPath entries s).2.cache k).isSome) ∧
    (∀ q ∈ (hasMarkdown relPath entries s).2.readPaths,
        q ∈ s.readPaths ∨ (lookupC (hasMarkdown relPath entries s).2.cache q).isSome) := by
  rw [hasMarkdown]
  split
  · exact ⟨fun k hk => hk, fun q hq => Or.inl hq⟩
  · rename_i heq
    have hrec := hmScan_visited relPath entries ⟨s.cache, s.readPaths ++ [relPath]⟩
    split
    · rename_i s2 heq2
      rw [heq2] at hrec
      refine ⟨fun k hk => lookupC_cons_isSome (hrec.1 k hk) _ _, ?_⟩
      intro q hq
      rcases hrec.2 q hq with h1 | h1
      · rcases List.mem_append.mp h1 with h2 | h2
        · exact Or.inl h2
        · have : q = relPath := by simpa using h2
          subst this
          exact Or.inr (by rw [lookupC_cons_self]; rfl)
      · exact Or.inr (lookupC_cons_isSome h1 _ _)
    · rename_i s2 heq2
      rw [heq2] at hrec
      refine ⟨fun k hk => lookupC_cons_isSome (hrec.1 k hk) _ _, ?_⟩
      intro q hq
      rcases hrec.2 q hq with h1 | h1
      · rcases List.mem_append.mp h1 with h2 | h2
        · exact Or.inl h2
        · have : q = relPath := by simpa using h2
          subst this
          exact Or.inr (by rw [lookupC_cons_self]; rfl)
      · exact Or.inr (lookupC_cons_isSome h1 _ _)
termination_by (sizeOf entries, 1)

theorem hmScan_visited (relPath : String) (l : List FSEntry) (s : HMState) :
    (∀ k, (lookupC s.cache k).isSome →
        (lookupC (hmScan relPath l s).2.cache k).isSome) ∧
    (∀ q ∈ (hmScan relPath l s).2.readPaths,
        q ∈ s.readPaths ∨ (lookupC (hmScan relPath l s).2.cache q).isSome) := by
  match l with
  | [] =>
    rw [hmScan]
    exact ⟨fun k hk => hk, fun q hq => Or.inl hq⟩
  | .file name :: rest =>
    rw [hmScan]
    by_cases hmdn : isMarkdown name
    · rw [if_pos hmdn]
      exact ⟨fun k hk => hk, fun q hq => Or.inl hq⟩
    · rw [if_neg hmdn]
      exact hmScan_visited relPath rest s
  | .dir name sub :: rest =>
    rw [hmScan]
    by_cases hskip : shouldSkipDir name
    · rw [if_pos hskip]
      exact hmScan_visited relPath rest s
    · rw [if_neg hskip]
      have hrec := hasMarkdown_visited (joinPath relPath name) sub s
      split
      · rename_i s2 heq2
        rw [heq2] at hrec
        exact hrec
      · rename_i s2 heq2
        rw [heq2] at hrec
        have hrec2 := hmScan_visited relPath rest s2
        refine ⟨fun k hk => hrec2.1 k (hrec.1 k hk), ?_⟩
        intro q hq
        rcases hrec2.2 q hq with h1 | h1
        · rcases hrec.2 q h1 with h2 | h2
          · exact Or.inl h2
          · exact Or.inr (hrec2.1 q h2)
        · exact Or.inr h1
termination_by (sizeOf l, 0)
end

theorem sortedRecListL_iff (l : List LNode) :
    sortedRecListL l = true ↔ ∀ c ∈ l, sortedRecL c = true := by
  induction l with
  | nil => simp [sortedRecListL]
  | cons c cs ih => simp [sortedRecListL, ih]

theorem LNode.withLoader_children (c : LNode) : c.withLoader.children = c.children := by
  cases c; rfl

/-! ### EnsureLoaded: success, failure and idempotence (claims C1, C3, C9) -/
/-- Successful load: the listing's children get the parent's loader, are
sorted and installed, and the node is marked loaded. -/
theorem ensureLoaded_ok (L : String → Except String (List LNode))
    (nm p : String) (o : Bool) (ch : List LNode) (cs : List LNode)
    (hok : L p = .ok cs) :
    ensureLoaded L (.mk nm p true o ch false true) =
      (.mk nm p true o (List.insertionSort nodeLeLR (cs.map LNode.withLoader))
        true true, none, 1) := by
  simp only [ensureLoaded, LNode.isDir, LNode.loaded, LNode.hasLoader,
    LNode.path, hok, Bool.not_true, Bool.or_false, Bool.or_self, if_false]
  rfl

/-- A loaded node is never re-listed: `EnsureLoaded` is a no-op on it. -/
theorem ensureLoaded_noop_loaded (L : String → Except String (List LNode))
    (n : LNode) (h : n.loaded = true) : ensureLoaded L n = (n, none, 0) := by
  rw [ensureLoaded, h]
  simp

/-- Failed load: the error is surfaced, the node (children, `loaded`, every
field) is untouched, and exactly one `List` call was made. -/
theorem ensureLoaded_error (L : String → Except String (List LNode))
    (n : LNode) (e : String) (hdir : n.isDir = true) (hnl : n.loaded = false)
    (hl : n.hasLoader = true) (herr : L n.path = .error e) :
    ensureLoaded L n = (n, some e, 1) := by
  rw [ensureLoaded, hdir, hnl, hl, herr]
  simp

theorem sortedRecL_of_no_children (c : LNode) (h : c.children = []) :
    sortedRecL c = true := by
  cases c with
  | mk nm p d o ch ld hl =>
    simp only [LNode.children] at h
    subst h
    simp [sortedRecL, sortedRecListL, pairwiseB]

theorem pairwise_sortL (l : List LNode) :
    (List.insertionSort nodeLeLR l).Pairwise nodeLeLR := by
  haveI : IsTrans LNode nodeLeLR :=
    ⟨fun a b c hab hbc => nodeLeL_trans a b c hab hbc⟩
  haveI : IsTotal LNode nodeLeLR :=
    ⟨fun a b => by
      have h := nodeLeL_total a b
      rcases Bool.or_eq_true_iff.mp h with h1 | h1
      · exact Or.inl h1
      · exact Or.inr h1⟩
  exact List.sorted_insertionSort nodeLeLR l

/-- After a successful load whose listing returned leaf nodes (as
`FSLoader.List` always does), the loaded node's subtree satisfies the
recursive sorting invariant. -/
theorem ensureLoaded_sorted (L : String → Except String (List LNode))
    (n : LNode) (cs : List LNode) (hdir : n.isDir = true)
    (hnl : n.loaded = false) (hl : n.hasLoader = true)
    (hok : L n.path = .ok cs)
    (hcs : cs.all (fun c => c.children.isEmpty) = true) :
    sortedRecL (ensureLoaded L n).1 = true := by
  cases n with
  | mk nm p d o ch ld hld =>
    simp only [LNode.isDir] at hdir
    simp only [LNode.loaded] at hnl
    simp only [LNode.hasLoader] at hl
    subst hdir
    subst hnl
    subst hl
    simp only [LNode.path] at hok
    rw [ensureLoaded_ok L nm p o ch cs hok]
    rw [sortedRecL, Bool.and_eq_true]
    constructor
    · exact (pairwiseB_iff nodeLeL _).mpr
        (pairwise_sortL (cs.map LNode.withLoader))
    · rw [sortedRecListL_iff]
      intro c hc
      have hc2 : c ∈ cs.map LNode.withLoader :=
        (List.mem_insertionSort nodeLeLR).mp hc
      rw [List.mem_map] at hc2
      obtain ⟨c0, hc0, rfl⟩ := hc2
      have hemp := List.all_eq_true.mp hcs c0 hc0
      apply sortedRecL_of_no_children
      rw [LNode.withLoader_children]
      exact List.isEmpty_iff.mp (by simpa using hemp)

/-! ### Claim C1 -/
/-- C1: sorting invariant.  After every mutation that adds children — the
eager `Build`, the tag-filter merge (`sortTree`, and `buildFilteredTree`
which ends with it), and a successful lazy `EnsureLoaded` whose listing
returns leaf nodes (the filesystem loader only produces childless nodes) —
every node's children are ordered with all directories before all files and
each group ascending by lowercase name, recursively at every level. -/
theorem C1_sorting_invariant :
    (∀ rootName files, sortedRec (build rootName files) = true) ∧
    (∀ n, sortedRec (sortTree n) = true) ∧
    (∀ displayRoot relPaths,
      sortedRec (buildFilteredTree displayRoot relPaths) = true) ∧
    (∀ (L : String → Except String (List LNode)) (n : LNode) (cs : List LNode),
      n.isDir = true → n.loaded = false → n.hasLoader = true →
      L n.path = .ok cs → cs.all (fun c => c.children.isEmpty) = true →
      sortedRecL (ensureLoaded L n).1 = true) :=
  ⟨fun rootName files => sortedRec_sortRecursive _,
   fun n => sortedRec_sortTree n,
   fun displayRoot relPaths => sortedRec_sortTree _,
   fun L n cs h1 h2 h3 h4 h5 => ensureLoaded_sorted L n cs h1 h2 h3 h4 h5⟩

theorem C1_sorting_invariant_witness :
    sortedRec (build "root" ["b/x.md", "A/y.md", "a.md"]) = true ∧
    sortedRecL (ensureLoaded
      (fun _ => Except.ok [LNode.mk "z.md" "z.md" false false [] false false,
        LNode.mk "a" "a" true false [] false false])
      (newRoot "docs")).1 = true :=
  ⟨C1_sorting_invariant.1 "root" ["b/x.md", "A/y.md", "a.md"],
   C1_sorting_invariant.2.2.2 _ (newRoot "docs") _ rfl rfl rfl rfl (by decide)⟩

/-! ### Claim C3 (corrected) -/
/-- C3 as frozen is false: for a directory node whose loader always fails,
two successive `EnsureLoaded` calls perform two `List` calls (one each), and
the second call is not an error-free no-op. -/
theorem C3_counterexample_failing_loader :
    ((ensureLoaded (fun _ => Except.error "boom") (newRoot "docs")).2.2 = 1) ∧
    ((ensureLoaded (fun _ => Except.error "boom")
        ((ensureLoaded (fun _ => Except.error "boom") (newRoot "docs")).1)).2.2
      = 1) ∧
    ((ensureLoaded (fun _ => Except.error "boom")
        ((ensureLoaded (fun _ => Except.error "boom") (newRoot "docs")).1)).2.1
      ≠ none) := by
  refine ⟨rfl, rfl, ?_⟩
  intro h
  exact Option.noConfusion h

/-- C3 amended: for every not-yet-loaded directory node with a loader whose
listing succeeds, the first `EnsureLoaded` performs exactly one `List` call
and returns no error, and the second call is a no-op — no further `List`
call, no error, the node (children, loaded flag and all other fields)
returned unchanged. -/
theorem C3_idempotent_load (L : String → Except String (List LNode))
    (n : LNode) (cs : List LNode) (hdir : n.isDir = true)
    (hnl : n.loaded = false) (hl : n.hasLoader = true)
    (hok : L n.path = .ok cs) :
    (ensureLoaded L n).2.2 = 1 ∧ (ensureLoaded L n).2.1 = none ∧
      ensureLoaded L (ensureLoaded L n).1 = ((ensureLoaded L n).1, none, 0) := by
  cases n with
  | mk nm p d o ch ld hld =>
    simp only [LNode.isDir] at hdir
    simp only [LNode.loaded] at hnl
    simp only [LNode.hasLoader] at hl
    subst hdir
    subst hnl
    subst hl
    simp only [LNode.path] at hok
    rw [ensureLoaded_ok L nm p o ch cs hok]
    refine ⟨rfl, rfl, ?_⟩
    exact ensureLoaded_noop_loaded L _ rfl

theorem C3_idempotent_load_witness :
    ((ensureLoaded (fun _ => Except.ok []) (newRoot "docs")).2.2 = 1) ∧
    ((ensureLoaded (fun _ => Except.ok []) (newRoot "docs")).2.1 = none) ∧
    (ensureLoaded (fun _ => Except.ok [])
        ((ensureLoaded (fun _ => Except.ok []) (newRoot "docs")).1) =
      ((ensureLoaded (fun _ => Except.ok []) (newRoot "docs")).1, none, 0)) :=
  C3_idempotent_load (fun _ => Except.ok []) (newRoot "docs") [] rfl rfl rfl rfl

/-! ### Claim C9 -/
/-- C9: failure atomicity of `EnsureLoaded`.  When the loader's `List` call
errors, the error is returned to the caller, the node is left exactly as it
was (in particular `loaded` remains false, so a later call retries), and no
automatic retry happens — exactly one `List` call is made. -/
theorem C9_ensureLoaded_failure_atomic (L : String → Except String (List LNode))
    (n : LNode) (e : String) (hdir : n.isDir = true) (hnl : n.loaded = false)
    (hl : n.hasLoader = true) (herr : L n.path = .error e) :
    ensureLoaded L n = (n, some e, 1) ∧ (ensureLoaded L n).1.loaded = false := by
  have h := ensureLoaded_error L n e hdir hnl hl herr
  exact ⟨h, by rw [h]; exact hnl⟩

theorem C9_ensureLoaded_failure_atomic_witness :
    (ensureLoaded (fun _ => Except.error "io") (newRoot "docs") =
      (newRoot "docs", some "io", 1)) ∧
    (ensureLoaded (fun _ => Except.error "io") (newRoot "docs")).1.loaded = false :=
  C9_ensureLoaded_failure_atomic (fun _ => Except.error "io") (newRoot "docs")
    "io" rfl rfl rfl rfl

/-! ### Claim C6 -/
theorem withChildren_path (n : TNode) (cs : List TNode) :
    (n.withChildren cs).path = n.path := by cases n; rfl

theorem sortRecursive_path (n : TNode) : (sortRecursive n).path = n.path := by
  rw [sortRecursive_eq_map]; exact withChildren_path _ _

theorem sortRec_if_name (c : TNode) :
    (if c.children.isEmpty then c else sortRecursive c).name = c.name := by
  split
  · rfl
  · exact sortRecursive_name c

theorem sortRec_if_isDir (c : TNode) :
    (if c.children.isEmpty then c else sortRecursive c).isDir = c.isDir := by
  split
  · rfl
  · exact sortRecursive_isDir c

theorem sortRec_if_path (c : TNode) :
    (if c.children.isEmpty then c else sortRecursive c).path = c.path := by
  split
  · rfl
  · exact sortRecursive_path c

/-- C6: `Build("root", ["b/x.md", "A/y.md", "a.md"])` yields root children
`A/` (dir), `b/` (dir), `a.md` (file) in that order; and in general a final
path segment whose name already exists under the current parent is skipped
(first occurrence wins). -/
theorem C6_build_scenarioA :
    ((build "root" ["b/x.md", "A/y.md", "a.md"]).children.map
        (fun c => (c.name, c.isDir, c.path)) =
      [("A", true, "A"), ("b", true, "b"), ("a.md", false, "a.md")]) ∧
    (∀ (n : TNode) (currentPath part : String),
      (childByName n part).isSome = true →
      insertParts n currentPath [part] = n) := by
  constructor
  · rw [build]
    rw [show (["b/x.md", "A/y.md", "a.md"] : List String).foldl
        (fun acc rel => insertParts acc "" (splitOnSlash rel))
        (TNode.mk "root" "" true true []) =
        TNode.mk "root" "" true true
          [TNode.mk "b" "b" true false [TNode.mk "x.md" "b/x.md" false false []],
           TNode.mk "A" "A" true false [TNode.mk "y.md" "A/y.md" false false []],
           TNode.mk "a.md" "a.md" false false []] from rfl]
    rw [sortRecursive_eq_map, withChildren_children, List.map_map]
    simp only [Function.comp_def, sortRec_if_name, sortRec_if_isDir,
      sortRec_if_path]
    rfl
  · intro n currentPath part h
    cases hcb : childByName n part with
    | none => rw [hcb] at h; exact Bool.noConfusion h
    | some c => simp [insertParts, hcb]

theorem C6_build_scenarioA_witness :
    ((childByName (TNode.mk "r" "" true true
        [TNode.mk "a.md" "a.md" false false []]) "a.md").isSome = true) ∧
    (insertParts (TNode.mk "r" "" true true
        [TNode.mk "a.md" "a.md" false false []]) "" ["a.md"] =
      TNode.mk "r" "" true true [TNode.mk "a.md" "a.md" false false []]) :=
  ⟨rfl, C6_build_scenarioA.2 _ "" "a.md" rfl⟩

/-! ### Correctness of closestMatchIndex (claim C4) -/
theorem closestLoop_spec (line : Int) :
    ∀ (rest ms : List Int) (i best : Nat) (bestDiff : Int),
      i + rest.length = ms.length →
      rest = ms.drop i →
      best < i →
      bestDiff = absInt (ms.getD best 0 - line) →
      (∀ j, j < i → bestDiff ≤ absInt (ms.getD j 0 - line)) →
      (∀ j, j < best → bestDiff < absInt (ms.getD j 0 - line)) →
      (closestLoop line rest i bestDiff best < ms.length ∧
       (∀ j, j < ms.length →
         absInt (ms.getD (closestLoop line rest i bestDiff best) 0 - line) ≤
           absInt (ms.getD j 0 - line)) ∧
       (∀ j, j < closestLoop line rest i bestDiff best →
         absInt (ms.getD (closestLoop line rest i bestDiff best) 0 - line) <
           absInt (ms.getD j 0 - line)))
  | [], ms, i, best, bestDiff, hlen, hdrop, hbi, hdiff, hmin, hfirst => by
    rw [closestLoop]
    have hi : i = ms.length := by simpa using hlen
    subst hi
    refine ⟨hbi, ?_, ?_⟩
    · intro j hj
      rw [← hdiff]
      exact hmin j hj
    · intro j hj
      rw [← hdiff]
      exact hfirst j hj
  | a :: rest, ms, i, best, bestDiff, hlen, hdrop, hbi, hdiff, hmin, hfirst => by
    have hget : ms.getD i 0 = a := by
      have h0 : (ms.drop i).getD 0 0 = a := by rw [← hdrop]; rfl
      rw [List.getD_eq_getElem?_getD] at h0 ⊢
      rw [List.getElem?_drop] at h0
      simpa using h0
    have hdrop2 : rest = ms.drop (i + 1) := by
      have := congrArg (List.drop 1) hdrop
      simpa [List.drop_drop] using this
    have hlen2 : (i + 1) + rest.length = ms.length := by
      simp at hlen
      omega
    rw [closestLoop]
    by_cases hlt : absInt (a - line) < bestDiff
    · rw [if_pos hlt]
      refine closestLoop_spec line rest ms (i + 1) i (absInt (a - line))
        hlen2 hdrop2 (by omega) (by rw [hget]) ?_ ?_
      · intro j hj
        by_cases hji : j < i
        · have := hmin j hji
          omega
        · have hj2 : j = i := by omega
          subst hj2
          rw [hget]
      · intro j hj
        have := hmin j hj
        omega
    · rw [if_neg hlt]
      refine closestLoop_spec line rest ms (i + 1) best bestDiff
        hlen2 hdrop2 (by omega) hdiff ?_ hfirst
      intro j hj
      by_cases hji : j < i
      · exact hmin j hji
      · have hj2 : j = i := by omega
        subst hj2
        rw [hget]
        omega

/-- `closestMatchIndex` returns a valid index whose match line has minimal
absolute distance to the given line, and it is the first such index in a
left-to-right scan (every earlier index is strictly farther). -/
theorem closestMatchIndex_spec (ms : List Int) (line : Int) (h : ms ≠ []) :
    closestMatchIndex ms line < ms.length ∧
    (∀ j, j < ms.length →
      absInt (ms.getD (closestMatchIndex ms line) 0 - line) ≤
        absInt (ms.getD j 0 - line)) ∧
    (∀ j, j < closestMatchIndex ms line →
      absInt (ms.getD (closestMatchIndex ms line) 0 - line) <
        absInt (ms.getD j 0 - line)) := by
  cases ms with
  | nil => exact absurd rfl h
  | cons a rest =>
    rw [closestMatchIndex]
    exact closestLoop_spec line rest (a :: rest) 1 0 (absInt (a - line))
      (by simp; omega) (by simp) (by omega) (by rfl)
      (fun j hj => by
        have hj0 : j = 0 := by omega
        subst hj0
        exact le_refl _)
      (fun j hj => by omega)

/-! ### Field-preservation lemmas for the model operations -/
theorem setYOffset_height (vp : Viewport) (o : Int) :
    (vp.setYOffset o).height = vp.height := rfl

theorem setYOffset_lineCount (vp : Viewport) (o : Int) :
    (vp.setYOffset o).lineCount = vp.lineCount := rfl

theorem gotoSearchMatch_pres (m : MModel) :
    (gotoSearchMatch m).rawContent = m.rawContent ∧
    (gotoSearchMatch m).renderedContent = m.renderedContent ∧
    (gotoSearchMatch m).err = m.err ∧
    (gotoSearchMatch m).searchQuery = m.searchQuery ∧
    (gotoSearchMatch m).searchMatches = m.searchMatches ∧
    (gotoSearchMatch m).searchIndex = m.searchIndex ∧
    (gotoSearchMatch m).watchedFile = m.watchedFile ∧
    (gotoSearchMatch m).activeAbsPath = m.activeAbsPath ∧
    (gotoSearchMatch m).contentVP.height = m.contentVP.height ∧
    (gotoSearchMatch m).contentVP.lineCount = m.contentVP.lineCount := by
  unfold gotoSearchMatch
  split
  · exact ⟨rfl, rfl, rfl, rfl, rfl, rfl, rfl, rfl, rfl, rfl⟩
  · split
    · exact ⟨rfl, rfl, rfl, rfl, rfl, rfl, rfl, rfl, rfl, rfl⟩
    · exact ⟨rfl, rfl, rfl, rfl, rfl, rfl, rfl, rfl, rfl, rfl⟩

/-- `onContentChanged` with no active query is the identity. -/
theorem onContentChanged_noquery (m : MModel) (h : m.searchQuery = "") :
    onContentChanged m = m := by
  unfold onContentChanged
  rw [if_pos h]

/-- `onContentChanged` with an active query and a non-empty new match list:
the match list is replaced by the fresh scan result, the status slot is
cleared, and the content and query fields are untouched. -/
theorem onContentChanged_success (m : MModel) (hq : ¬m.searchQuery = "")
    (hms : ¬findSearchMatches m.renderedContent m.searchQuery = []) :
    (onContentChanged m).err = none ∧
    (onContentChanged m).searchMatches =
      findSearchMatches m.renderedContent m.searchQuery ∧
    (onContentChanged m).rawContent = m.rawContent ∧
    (onContentChanged m).renderedContent = m.renderedContent ∧
    (onContentChanged m).searchQuery = m.searchQuery ∧
    (onContentChanged m).watchedFile = m.watchedFile ∧
    (onContentChanged m).activeAbsPath = m.activeAbsPath ∧
    (onContentChanged m).contentVP.height = m.contentVP.height ∧
    (onContentChanged m).contentVP.lineCount = m.contentVP.lineCount := by
  unfold onContentChanged
  rw [if_neg hq, if_neg (by simpa using hms)]
  split
  · obtain ⟨p1, p2, p3, p4, p5, p6, p7, p8, p9, p10⟩ := gotoSearchMatch_pres
      { m with searchMatches := findSearchMatches m.renderedContent m.searchQuery,
               searchIndex := (closestMatchIndex
                 (findSearchMatches m.renderedContent m.searchQuery)
                 (prevMatchLine m) : Int),
               err := none }
    exact ⟨p3, p5, p1, p2, p4, p7, p8, p9, p10⟩
  · split
    · obtain ⟨p1, p2, p3, p4, p5, p6, p7, p8, p9, p10⟩ := gotoSearchMatch_pres
        { m with searchMatches := findSearchMatches m.renderedContent m.searchQuery,
                 searchIndex := 0, err := none }
      exact ⟨p3, p5, p1, p2, p4, p7, p8, p9, p10⟩
    · obtain ⟨p1, p2, p3, p4, p5, p6, p7, p8, p9, p10⟩ := gotoSearchMatch_pres
        { m with searchMatches := findSearchMatches m.renderedContent m.searchQuery,
                 err := none }
      exact ⟨p3, p5, p1, p2, p4, p7, p8, p9, p10⟩

/-! ### Scan-loop lemmas (claim C10) -/
theorem scanPos_ge (lc lq : List Char) :
    ∀ (fuel off : Nat), ∀ p ∈ scanPos lc lq off fuel, off ≤ p := by
  intro fuel
  induction fuel with
  | zero => intro off p hp; rw [scanPos] at hp; exact absurd hp (by simp)
  | succ f ih =>
    intro off p hp
    rw [scanPos] at hp
    cases hidx : findIdx lq (lc.drop off) with
    | none => rw [hidx] at hp; exact absurd hp (by simp)
    | some pos =>
      rw [hidx] at hp
      rcases List.mem_cons.mp hp with h1 | h1
      · subst h1; omega
      · have := ih (off + pos + lq.length) p h1
        omega

theorem scanPos_pairwise (lc lq : List Char) :
    ∀ (fuel off : Nat),
      (scanPos lc lq off fuel).Pairwise (fun a b => a + lq.length ≤ b) := by
  intro fuel
  induction fuel with
  | zero => intro off; rw [scanPos]; exact List.Pairwise.nil
  | succ f ih =>
    intro off
    rw [scanPos]
    cases hidx : findIdx lq (lc.drop off) with
    | none => exact List.Pairwise.nil
    | some pos =>
      rw [List.pairwise_cons]
      refine ⟨?_, ih _⟩
      intro b hb
      have := scanPos_ge lc lq f (off + pos + lq.length) b hb
      omega

theorem scanLoop_eq_map (stripped lc lq : List Char) :
    ∀ (fuel off : Nat),
      scanLoop stripped lc lq off fuel =
        (scanPos lc lq off fuel).map
          (fun p => (((stripped.take p).count '\n' : Nat) : Int)) := by
  intro fuel
  induction fuel with
  | zero => intro off; rw [scanLoop, scanPos]; rfl
  | succ f ih =>
    intro off
    rw [scanLoop, scanPos]
    cases hidx : findIdx lq (lc.drop off) with
    | none => rfl
    | some pos =>
      exact congrArg
        (List.cons (((stripped.take (off + pos)).count '\n' : Nat) : Int))
        (ih (off + pos + lq.length))

/-! ### Claim C10 -/
/-- C10 (implicit): the scan records non-overlapping occurrences — every two
recorded start positions are at least a full query-length apart, because the
loop resumes right after the end of each match (so `"aa"` in `"aaa"` yields
exactly one match) — and the reported numbers are exactly the newline counts
of the stripped content before each recorded start position. -/
theorem C10_nonoverlapping_scan :
    (∀ (lowerContent lowerQuery : List Char) (fuel off : Nat),
      (scanPos lowerContent lowerQuery off fuel).Pairwise
        (fun a b => a + lowerQuery.length ≤ b)) ∧
    (∀ (stripped lowerContent lowerQuery : List Char) (fuel off : Nat),
      scanLoop stripped lowerContent lowerQuery off fuel =
        (scanPos lowerContent lowerQuery off fuel).map
          (fun p => (((stripped.take p).count '\n' : Nat) : Int))) ∧
    findSearchMatches "aaa" "aa" = [0] :=
  ⟨fun lc lq fuel off => scanPos_pairwise lc lq fuel off,
   fun s lc lq fuel off => scanLoop_eq_map s lc lq fuel off,
   rfl⟩

/-! ### Claim C4 -/
/-- C4: closest-match reconciliation.  When content changes while a query is
active and the previous current match's line is known (the code's test:
`prevMatchLine m ≥ 0`), the new index is `closestMatchIndex` of the fresh
match list — which is the first index, scanning left to right, whose line has
minimal absolute distance to the previous line; in particular for previous
line 5 and new lines [2, 6, 9] index 1 (line 6) is selected. -/
theorem C4_closest_match_reconciliation :
    (∀ (m : MModel),
      m.searchQuery ≠ "" →
      0 ≤ prevMatchLine m →
      findSearchMatches m.renderedContent m.searchQuery ≠ [] →
      (onContentChanged m).searchIndex =
        (closestMatchIndex (findSearchMatches m.renderedContent m.searchQuery)
          (prevMatchLine m) : Int)) ∧
    (∀ (ms : List Int) (line : Int), ms ≠ [] →
      closestMatchIndex ms line < ms.length ∧
      (∀ j, j < ms.length →
        absInt (ms.getD (closestMatchIndex ms line) 0 - line) ≤
          absInt (ms.getD j 0 - line)) ∧
      (∀ j, j < closestMatchIndex ms line →
        absInt (ms.getD (closestMatchIndex ms line) 0 - line) <
          absInt (ms.getD j 0 - line))) ∧
    closestMatchIndex [2, 6, 9] 5 = 1 := by
  refine ⟨?_, closestMatchIndex_spec, by rfl⟩
  intro m hq hprev hms
  unfold onContentChanged
  rw [if_neg hq, if_neg (by simpa using hms), if_pos hprev]
  rw [(gotoSearchMatch_pres _).2.2.2.2.2.1]

theorem C4_closest_match_reconciliation_witness :
    (let m0 : MModel :=
      { rawContent := "", renderedContent := "x\nx", err := none,
        searchQuery := "x", searchMatches := [0], searchIndex := 0,
        watchedFile := "", activeAbsPath := "",
        contentVP := { height := 0, lineCount := 0, yOffset := 0 } }
     m0.searchQuery ≠ "" ∧ 0 ≤ prevMatchLine m0 ∧
     findSearchMatches m0.renderedContent m0.searchQuery ≠ [] ∧
     (onContentChanged m0).searchIndex =
       (closestMatchIndex (findSearchMatches m0.renderedContent m0.searchQuery)
         (prevMatchLine m0) : Int)) :=
  ⟨by decide, by decide, by decide,
   C4_closest_match_reconciliation.1 _ (by decide) (by decide) (by decide)⟩

/-! ### Claim C5 -/
theorem nextSearchMatch_fields (m : MModel) (h : ¬m.searchMatches = []) :
    (nextSearchMatch m).searchMatches = m.searchMatches ∧
    (nextSearchMatch m).searchIndex =
      (if m.searchIndex < 0 then 0
       else (m.searchIndex + 1) % (m.searchMatches.length : Int)) := by
  unfold nextSearchMatch
  rw [if_neg (by simpa using h)]
  exact ⟨(gotoSearchMatch_pres _).2.2.2.2.1, (gotoSearchMatch_pres _).2.2.2.2.2.1⟩

/-- C5: case-insensitive substring search over
`"Hello hello world\nhello again"` with query `"hello"` yields match lines
[0, 0, 1]; from index 0, `Next()` goes 1, then 2, then wraps to 0; and
`Next()`/`Previous()` are no-ops on an empty match list. -/
theorem C5_search_matching_and_cycling :
    (findSearchMatches "Hello hello world\nhello again" "hello" = [0, 0, 1]) ∧
    (∀ (m : MModel), m.searchMatches = [0, 0, 1] → m.searchIndex = 0 →
      (nextSearchMatch m).searchIndex = 1 ∧
      (nextSearchMatch (nextSearchMatch m)).searchIndex = 2 ∧
      (nextSearchMatch (nextSearchMatch (nextSearchMatch m))).searchIndex = 0) ∧
    (∀ (m : MModel), m.searchMatches = [] →
      nextSearchMatch m = m ∧ previousSearchMatch m = m) := by
  refine ⟨by rfl, ?_, ?_⟩
  · intro m h0 hi
    have hne : ¬m.searchMatches = [] := by rw [h0]; simp
    obtain ⟨f1, f2⟩ := nextSearchMatch_fields m hne
    have e1 : (nextSearchMatch m).searchIndex = 1 := by
      rw [f2, hi, h0]; decide
    have hne2 : ¬(nextSearchMatch m).searchMatches = [] := by rw [f1, h0]; simp
    obtain ⟨g1, g2⟩ := nextSearchMatch_fields (nextSearchMatch m) hne2
    have e2 : (nextSearchMatch (nextSearchMatch m)).searchIndex = 2 := by
      rw [g2, e1, f1, h0]; decide
    have hne3 : ¬(nextSearchMatch (nextSearchMatch m)).searchMatches = [] := by
      rw [g1, f1, h0]; simp
    obtain ⟨k1, k2⟩ :=
      nextSearchMatch_fields (nextSearchMatch (nextSearchMatch m)) hne3
    have e3 : (nextSearchMatch (nextSearchMatch (nextSearchMatch m))).searchIndex
        = 0 := by
      rw [k2, e2, g1, f1, h0]; decide
    exact ⟨e1, e2, e3⟩
  · intro m h
    constructor
    · unfold nextSearchMatch
      rw [if_pos (by rw [h]; rfl)]
    · unfold previousSearchMatch
      rw [if_pos (by rw [h]; rfl)]

theorem C5_search_matching_and_cycling_witness :
    (let m0 : MModel :=
      { rawContent := "", renderedContent := "Hello hello world\nhello again",
        err := none, searchQuery := "hello", searchMatches := [0, 0, 1],
        searchIndex := 0, watchedFile := "", activeAbsPath := "",
        contentVP := { height := 0, lineCount := 0, yOffset := 0 } }
     (nextSearchMatch m0).searchIndex = 1 ∧
     (nextSearchMatch (nextSearchMatch m0)).searchIndex = 2 ∧
     (nextSearchMatch (nextSearchMatch (nextSearchMatch m0))).searchIndex = 0) ∧
    (let m1 : MModel :=
      { rawContent := "", renderedContent := "", err := none,
        searchQuery := "q", searchMatches := [], searchIndex := -1,
        watchedFile := "", activeAbsPath := "",
        contentVP := { height := 0, lineCount := 0, yOffset := 0 } }
     nextSearchMatch m1 = m1 ∧ previousSearchMatch m1 = m1) :=
  ⟨C5_search_matching_and_cycling.2.1 _ rfl rfl,
   C5_search_matching_and_cycling.2.2 _ rfl⟩

/-! ### Claim C8 -/
/-- C8: no-match condition.  A search (fresh `performSearch`, or the
reconciliation in `onContentChanged`) that finds nothing empties the match
list, sets the current index to −1, reports the informational "no match"
status in the single status slot (no I/O is involved), and leaves the stored
query text in place for the user to retry or edit. -/
theorem C8_no_match_condition :
    (∀ (m : MModel) (q : String) (resetIndex : Bool),
      findSearchMatches m.renderedContent (trimSpace q) = [] →
      performSearch m q resetIndex =
        { m with searchQuery := trimSpace q, searchMatches := [],
                 searchIndex := -1, err := some (noMatchMsg (trimSpace q)) }) ∧
    (∀ (m : MModel), m.searchQuery ≠ "" →
      findSearchMatches m.renderedContent m.searchQuery = [] →
      onContentChanged m =
        { m with searchMatches := [], searchIndex := -1,
                 err := some (noMatchMsg m.searchQuery) }) := by
  constructor
  · intro m q resetIndex h
    unfold performSearch
    rw [h]
    rfl
  · intro m hq h
    unfold onContentChanged
    rw [if_neg hq, h]
    rfl

theorem C8_no_match_condition_witness :
    (let m0 : MModel :=
      { rawContent := "", renderedContent := "abc", err := none,
        searchQuery := "", searchMatches := [], searchIndex := -1,
        watchedFile := "", activeAbsPath := "",
        contentVP := { height := 0, lineCount := 0, yOffset := 0 } }
     performSearch m0 "zzz" true =
       { m0 with searchQuery := "zzz", searchMatches := [], searchIndex := -1,
                 err := some (noMatchMsg "zzz") }) ∧
    (let m1 : MModel :=
      { rawContent := "", renderedContent := "abc", err := none,
        searchQuery := "zzz", searchMatches := [0], searchIndex := 0,
        watchedFile := "", activeAbsPath := "",
        contentVP := { height := 0, lineCount := 0, yOffset := 0 } }
     onContentChanged m1 =
       { m1 with searchMatches := [], searchIndex := -1,
                 err := some (noMatchMsg "zzz") }) :=
  ⟨C8_no_match_condition.1 _ "zzz" true (by decide),
   C8_no_match_condition.2 _ (by decide) (by decide)⟩

/-! ### Claim C7 -/
theorem renderMarkdown_success (r : String → Except String String) (m : MModel)
    (rendered : String) (hr : r m.rawContent = .ok rendered) :
    renderMarkdown (some r) m =
      onContentChanged
        { m with
          err := none,
          contentVP := m.contentVP.setContent rendered,
          renderedContent := rendered } := by
  simp only [renderMarkdown, hr]

/-- The no-match branch of `onContentChanged`: the match list is emptied,
the index cleared, the informational status raised, everything else kept. -/
theorem onContentChanged_nomatch (m : MModel) (hq : ¬m.searchQuery = "")
    (h : findSearchMatches m.renderedContent m.searchQuery = []) :
    onContentChanged m =
      { m with searchMatches := [], searchIndex := -1,
               err := some (noMatchMsg m.searchQuery) } := by
  unfold onContentChanged
  rw [if_neg hq, h]
  rfl

/-- C7: watch-event filtering and reload.  A change message whose cleaned
path differs from the cleaned watched file leaves all state unchanged and
reads nothing; a message whose cleaned path matches triggers exactly one
read of the active file's bytes, regenerates the rendered content (running
the search reconciliation on it — whatever that reconciliation finds), and
ends with the previous vertical scroll offset restored, clamped by the new
content's line count when the new content has fewer lines than that offset.
When the reconciliation raises the no-match status the explicit
`SetYOffset` restore is skipped, but the offset was never moved and the
widget already clamped it when the new content was set, so the restored,
clamped offset is the outcome on every path through a successful reload. -/
theorem C7_watch_filter_and_reload :
    (∀ (fsRead : String → Except String String)
        (render : Option (String → Except String String))
        (m : MModel) (msgPath : String),
      cleanPath msgPath ≠ cleanPath m.watchedFile →
      handleFileEvent fsRead render m msgPath = (m, 0)) ∧
    (∀ (fsRead : String → Except String String)
        (r : String → Except String String) (m : MModel) (msgPath : String)
        (data rendered : String),
      cleanPath msgPath = cleanPath m.watchedFile →
      m.watchedFile ≠ "" →
      m.activeAbsPath ≠ "" →
      fsRead m.activeAbsPath = .ok data →
      r data = .ok rendered →
      ((handleFileEvent fsRead (some r) m msgPath).2 = 1 ∧
       (handleFileEvent fsRead (some r) m msgPath).1.rawContent = data ∧
       (handleFileEvent fsRead (some r) m msgPath).1.renderedContent = rendered ∧
       (m.searchQuery ≠ "" →
         (handleFileEvent fsRead (some r) m msgPath).1.searchMatches =
           findSearchMatches rendered m.searchQuery) ∧
       (handleFileEvent fsRead (some r) m msgPath).1.contentVP.yOffset =
         maxInt 0 (if m.contentVP.yOffset > countLines rendered
                   then countLines rendered else m.contentVP.yOffset))) := by
  constructor
  · intro fsRead render m msgPath hne
    unfold handleFileEvent
    by_cases hw : m.watchedFile = ""
    · rw [if_pos hw]
    · rw [if_neg hw, if_pos hne]
  · intro fsRead r m msgPath data rendered heq hw ha hread hrender
    have hstep : handleFileEvent fsRead (some r) m msgPath =
        reloadActiveFile fsRead (some r) m := by
      unfold handleFileEvent
      rw [if_neg hw, if_neg (fun hne => hne heq)]
    have hrel : reloadActiveFile fsRead (some r) m =
        (if (renderMarkdown (some r) { m with rawContent := data }).err = none
         then
          ({ renderMarkdown (some r) { m with rawContent := data } with
              contentVP := (renderMarkdown (some r)
                { m with rawContent := data }).contentVP.setYOffset
                m.contentVP.yOffset }, 1)
         else (renderMarkdown (some r) { m with rawContent := data }, 1)) := by
      unfold reloadActiveFile
      rw [if_neg ha, hread]
    have hrm : renderMarkdown (some r) { m with rawContent := data } =
        onContentChanged
          { m with
            rawContent := data,
            err := none,
            contentVP := m.contentVP.setContent rendered,
            renderedContent := rendered } :=
      renderMarkdown_success r { m with rawContent := data } rendered hrender
    rw [hstep, hrel, hrm]
    by_cases hq0 : m.searchQuery = ""
    · rw [onContentChanged_noquery
        { m with
          rawContent := data,
          err := none,
          contentVP := m.contentVP.setContent rendered,
          renderedContent := rendered } hq0]
      rw [if_pos rfl]
      exact ⟨rfl, rfl, rfl, fun hq1 => absurd hq0 hq1, rfl⟩
    · by_cases hms0 : findSearchMatches rendered m.searchQuery = []
      · rw [onContentChanged_nomatch
          { m with
            rawContent := data,
            err := none,
            contentVP := m.contentVP.setContent rendered,
            renderedContent := rendered } hq0 hms0]
        rw [if_neg (fun hc => Option.noConfusion hc)]
        exact ⟨rfl, rfl, rfl, fun _ => hms0.symm, rfl⟩
      · obtain ⟨s1, s2, s3, s4, s5, s6, s7, s8, s9⟩ := onContentChanged_success
          { m with
            rawContent := data,
            err := none,
            contentVP := m.contentVP.setContent rendered,
            renderedContent := rendered } hq0 hms0
        rw [if_pos s1]
        refine ⟨rfl, s3, s4, fun _ => s2, ?_⟩
        show (Viewport.setYOffset _ m.contentVP.yOffset).yOffset = _
        unfold Viewport.setYOffset
        rw [s9]
        rfl

theorem C7_watch_filter_and_reload_witness :
    (let m0 : MModel :=
      { rawContent := "old", renderedContent := "old", err := none,
        searchQuery := "", searchMatches := [], searchIndex := -1,
        watchedFile := "/docs/a.md", activeAbsPath := "/docs/a.md",
        contentVP := { height := 2, lineCount := 10, yOffset := 5 } }
     handleFileEvent (fun _ => Except.ok "x") (some (fun s => Except.ok s)) m0
       "/docs/b.md" = (m0, 0)) ∧
    (let m0 : MModel :=
      { rawContent := "old", renderedContent := "old", err := none,
        searchQuery := "", searchMatches := [], searchIndex := -1,
        watchedFile := "/docs/a.md", activeAbsPath := "/docs/a.md",
        contentVP := { height := 2, lineCount := 10, yOffset := 5 } }
     ((handleFileEvent (fun _ => Except.ok "x") (some (fun s => Except.ok s))
        m0 "/docs/a.md").2 = 1 ∧
      (handleFileEvent (fun _ => Except.ok "x") (some (fun s => Except.ok s))
        m0 "/docs/a.md").1.rawContent = "x" ∧
      (handleFileEvent (fun _ => Except.ok "x") (some (fun s => Except.ok s))
        m0 "/docs/a.md").1.renderedContent = "x" ∧
      (m0.searchQuery ≠ "" →
        (handleFileEvent (fun _ => Except.ok "x") (some (fun s => Except.ok s))
          m0 "/docs/a.md").1.searchMatches =
          findSearchMatches "x" m0.searchQuery) ∧
      (handleFileEvent (fun _ => Except.ok "x") (some (fun s => Except.ok s))
        m0 "/docs/a.md").1.contentVP.yOffset =
        maxInt 0 (if m0.contentVP.yOffset > countLines "x"
                  then countLines "x" else m0.contentVP.yOffset))) :=
  ⟨C7_watch_filter_and_reload.1 _ _ _ _ (by decide),
   C7_watch_filter_and_reload.2 _ _ _ _ "x" "x" rfl (by decide) (by decide)
     rfl rfl⟩

/-! ### Claim C2 -/
theorem hasMarkdown_cached (relPath : String) (entries : List FSEntry)
    (s : HMState) (b : Bool) (h : lookupC s.cache relPath = some b) :
    hasMarkdown relPath entries s = (b, s) := by
  rw [hasMarkdown, h]

theorem hasMarkdown_writes (relPath : String) (entries : List FSEntry)
    (s : HMState) (hmiss : lookupC s.cache relPath = none) :
    lookupC (hasMarkdown relPath entries s).2.cache relPath =
      some (hasMarkdown relPath entries s).1 := by
  rw [hasMarkdown]
  split
  · rename_i b heq
    rw [heq] at hmiss
    exact Option.noConfusion hmiss
  · split
    · exact lookupC_cons_self _ _ _
    · exact lookupC_cons_self _ _ _

/-- C2: cache correctness of `HasMarkdown`.  (a) On a markdown-free subtree
(respecting the skip list) a first call from a fresh cache answers false and
leaves a negative cache entry for the queried path, and a repeat call is
answered from the cache with the state — including the read log — completely
unchanged; (b) any call whose path is already cached returns the cached value
without touching the filesystem or the state; (c) a single call leaves a
cache entry for every directory it read, not only the queried root. -/
theorem C2_hasMarkdown_cache_correctness :
    (∀ (relPath : String) (entries : List FSEntry),
      listHasMd entries = false →
      ((hasMarkdown relPath entries ⟨[], []⟩).1 = false ∧
       lookupC (hasMarkdown relPath entries ⟨[], []⟩).2.cache relPath =
         some false ∧
       hasMarkdown relPath entries (hasMarkdown relPath entries ⟨[], []⟩).2 =
         (false, (hasMarkdown relPath entries ⟨[], []⟩).2))) ∧
    (∀ (relPath : String) (entries : List FSEntry) (s : HMState) (b : Bool),
      lookupC s.cache relPath = some b →
      hasMarkdown relPath entries s = (b, s)) ∧
    (∀ (relPath : String) (entries : List FSEntry) (s : HMState),
      ∀ q ∈ (hasMarkdown relPath entries s).2.readPaths,
        q ∈ s.readPaths ∨
          (lookupC (hasMarkdown relPath entries s).2.cache q).isSome) := by
  refine ⟨?_, fun relPath entries s b h => hasMarkdown_cached relPath entries s b h,
    fun relPath entries s => (hasMarkdown_visited relPath entries s).2⟩
  intro relPath entries hmd
  have h1 := hasMarkdown_no_md relPath entries ⟨[], []⟩ hmd
    (by intro kv hkv; exact absurd hkv (List.not_mem_nil kv))
  have hwr := hasMarkdown_writes relPath entries ⟨[], []⟩ rfl
  rw [h1.1] at hwr
  exact ⟨h1.1, hwr, hasMarkdown_cached _ _ _ false hwr⟩

theorem C2_hasMarkdown_cache_correctness_witness :
    (listHasMd [FSEntry.file "readme.txt"] = false ∧
     (hasMarkdown "docs" [FSEntry.file "readme.txt"] ⟨[], []⟩).1 = false ∧
     hasMarkdown "docs" [FSEntry.file "readme.txt"]
         (hasMarkdown "docs" [FSEntry.file "readme.txt"] ⟨[], []⟩).2 =
       (false, (hasMarkdown "docs" [FSEntry.file "readme.txt"] ⟨[], []⟩).2)) ∧
    (hasMarkdown "docs" [FSEntry.file "readme.txt"]
        ⟨[("docs", false)], []⟩ = (false, ⟨[("docs", false)], []⟩)) ∧
    ("docs" ∈ (hasMarkdown "docs" [FSEntry.file "readme.txt"] ⟨[], []⟩).2.readPaths ∧
     ("docs" ∈ ([] : List String) ∨
      (lookupC (hasMarkdown "docs" [FSEntry.file "readme.txt"]
        ⟨[], []⟩).2.cache "docs").isSome)) := by
  have hmd : listHasMd [FSEntry.file "readme.txt"] = false := by
    simp [listHasMd, entryHasMd]
    decide
  have hmem : "docs" ∈
      (hasMarkdown "docs" [FSEntry.file "readme.txt"] ⟨[], []⟩).2.readPaths := by
    simp [hasMarkdown, hmScan, lookupC]
    decide
  have happ := C2_hasMarkdown_cache_correctness.1 "docs"
    [FSEntry.file "readme.txt"] hmd
  refine ⟨⟨hmd, happ.1, happ.2.2⟩,
    C2_hasMarkdown_cache_correctness.2.1 "docs" _ _ false rfl,
    hmem,
    C2_hasMarkdown_cache_correctness.2.2 "docs" _ _ "docs" hmem⟩
